import Mathlib

/-
Shallow embedding of the chip-list projection implemented in
`src/ChipListMemo/ChipListMemo.tsx`, `src/ChipListCusto/ChipListCusto.tsx`
(identical `visibleChips` / `exceeding` logic) and the chip insertion
handler `handleAddChip` in `src/App.tsx`.

JavaScript numbers are modelled as `Int` (all values involved are exact
integers), strings as Lean `String` over their character sequences, optional
props as `Option`.  The JavaScript truthiness tests `maxChips ? … : …` and
`!maxTextLength` treat `undefined` and `0` alike, which the definitions below
reproduce exactly.
-/

/-- A chip record, `type Chip = { label: string }`. -/
structure Chip where
  label : String
deriving Repr, DecidableEq

/-- The constant `ELLIPSIS = "…"` from the components. -/
def ELLIPSIS : String := "…"

/-- JavaScript `arr.slice(0, e)`: a negative end index counts back from the
end of the array; the result is in every case an initial segment. -/
def jsSliceToEnd {α : Type} (l : List α) (e : Int) : List α :=
  if e < 0 then l.take ((l.length : Int) + e).toNat else l.take e.toNat

/-- JavaScript `str.slice(0, e)`, applied to the character sequence. -/
def jsStringSlice (s : String) (e : Int) : String :=
  String.mk (jsSliceToEnd s.data e)

/-- The body of the `map` inside `visibleChips`:
`!maxTextLength || chip.label.length <= maxTextLength` keeps the label
unchanged (`!maxTextLength` holds when the prop is `undefined` or `0`),
otherwise the chip renders as `chip.label.slice(0, maxTextLength) + ELLIPSIS`. -/
def displayLabel (maxTextLength : Option Int) (chip : Chip) : String :=
  match maxTextLength with
  | none => chip.label
  | some t =>
    if t = 0 ∨ (chip.label.length : Int) ≤ t then chip.label
    else jsStringSlice chip.label t ++ ELLIPSIS

/-- `visibleChips` from the components: the guard `if (!chips?.length) return []`,
then `const sliced = maxChips ? chips.slice(0, maxChips) : chips` (truthiness:
a present non-zero `maxChips` slices, `undefined` or `0` keeps every chip),
then the map to display labels. -/
def visibleChips (chips : List Chip) (maxChips maxTextLength : Option Int) :
    List String :=
  if chips.length = 0 then []
  else
    let sliced :=
      match maxChips with
      | some m => if m = 0 then chips else jsSliceToEnd chips m
      | none => chips
    sliced.map (displayLabel maxTextLength)

/-- `const exceeding = Math.max(chips.length - (maxChips ?? chips.length), 0)`. -/
def exceeding (chips : List Chip) (maxChips : Option Int) : Int :=
  max ((chips.length : Int) - maxChips.getD (chips.length : Int)) 0

/-- What the component renders: either the defensive "No chips available"
branch or the list of visible labels together with the exceeding count. -/
inductive RenderState where
  | noChips
  | listing (labels : List String) (hidden : Int)
deriving Repr, DecidableEq

/-- The component body after the hooks: `chips.length === 0` yields the empty
branch, otherwise the visible labels and the exceeding count are rendered. -/
def render (chips : List Chip) (maxChips maxTextLength : Option Int) :
    RenderState :=
  if chips.length = 0 then RenderState.noChips
  else
    RenderState.listing (visibleChips chips maxChips maxTextLength)
      (exceeding chips maxChips)

/-- The projection result the spec calls `ProjectionResult`:
`(visibleLabels, hiddenCount)` exactly as the component displays them
(the empty branch shows no chips and no exceeding count). -/
def project (chips : List Chip) (maxChips maxTextLength : Option Int) :
    List String × Int :=
  match render chips maxChips maxTextLength with
  | RenderState.noChips => ([], 0)
  | RenderState.listing labels hidden => (labels, hidden)

/-- `ChipListCusto`: the same projection plus a `theme` prop (defaulting to
`"light"`) that only enters the section's class name. -/
def custoRender (chips : List Chip) (maxChips maxTextLength : Option Int)
    (theme : Option String) : String × RenderState :=
  ("chipListCusto " ++ theme.getD "light", render chips maxChips maxTextLength)

/-- `handleAddChip` from `App.tsx`: trim the input; append a new chip exactly
when the trimmed text is non-empty and no existing label equals it. -/
def addChip (existing : List Chip) (candidate : String) : List Chip :=
  let trimmed := candidate.trim
  if trimmed ≠ "" ∧ ¬ (existing.any fun chip => chip.label == trimmed) then
    existing ++ [{ label := trimmed }]
  else existing

/-- The `initialSample` chip list from `App.tsx`. -/
def initialSample : List Chip :=
  [{ label := "ReactJS" }, { label := "TypeScript" },
   { label := "PerformanceOptimization" }, { label := "Memoization" },
   { label := "HooksMastery" }]

/-! ### Basic structural lemmas -/

/-- The first component of `project` is `visibleChips` in both branches. -/
theorem project_fst (chips : List Chip) (mc mtl : Option Int) :
    (project chips mc mtl).fst = visibleChips chips mc mtl := by
  unfold project render visibleChips
  by_cases hc : chips.length = 0 <;> simp [hc]

/-- Taking again up to the length of a taken segment changes nothing. -/
theorem take_length_take {α : Type} (l : List α) (n : Nat) :
    l.take ((l.take n).length) = l.take n := by
  rw [List.length_take]
  rcases le_total n l.length with h | h
  · rw [min_eq_left h]
  · rw [min_eq_right h, List.take_length, List.take_of_length_le h]

/-- `visibleChips` always displays an initial segment of the chip list. -/
theorem visibleChips_eq_take (chips : List Chip) (mc mtl : Option Int) :
    ∃ n, visibleChips chips mc mtl = (chips.take n).map (displayLabel mtl) := by
  unfold visibleChips jsSliceToEnd
  by_cases hc : chips.length = 0
  · exact ⟨0, by simp [hc]⟩
  · rcases mc with _ | m
    · exact ⟨chips.length, by simp [hc, List.take_length]⟩
    · by_cases hm : m = 0
      · exact ⟨chips.length, by simp [hc, hm, List.take_length]⟩
      · by_cases hneg : m < 0
        · exact ⟨((chips.length : Int) + m).toNat, by simp [hc, hm, hneg]⟩
        · exact ⟨m.toNat, by simp [hc, hm, hneg]⟩

/-! ### C1: length of visibleLabels -/

/-- C1 counterexample: with `chips = [{label:"a"}]` and `maxChips = 0` (which
satisfies the claim's precondition `maxChips ≥ 0`), the code returns one
visible label, not `min(1, 0) = 0` of them: JavaScript truthiness makes
`maxChips = 0` skip the slice entirely. -/
theorem C1_counterexample :
    ¬ (((project [{ label := "a" }] (some 0) none).fst.length : Int) =
        min (([{ label := "a" }] : List Chip).length : Int)
          ((some (0 : Int)).getD (([{ label := "a" }] : List Chip).length : Int))) := by
  decide

/-- C1 amended: for `maxChips`, if present, ≥ 0, the number of visible labels
is `length(chips)` when `maxChips` is absent **or zero** (zero is falsy, so no
slice is applied), and `min(length(chips), maxChips)` when `maxChips` is
positive. -/
theorem C1_amended (chips : List Chip) (mc mtl : Option Int)
    (h : ∀ m, mc = some m → 0 ≤ m) :
    ((project chips mc mtl).fst.length : Int) =
      match mc with
      | none => (chips.length : Int)
      | some m =>
        if m = 0 then (chips.length : Int) else min (chips.length : Int) m := by
  rw [project_fst]
  unfold visibleChips jsSliceToEnd
  by_cases hc : chips.length = 0
  · rcases mc with _ | m
    · simp [hc]
    · have hm := h m rfl
      by_cases h0 : m = 0 <;> simp [hc, h0]
      omega
  · rcases mc with _ | m
    · simp [hc]
    · have hm := h m rfl
      by_cases h0 : m = 0
      · simp [hc, h0]
      · have hneg : ¬ m < 0 := by omega
        simp [hc, h0, hneg, List.length_take]
        omega

/-- C1 amended, instantiated: two chips, `maxChips = 1`. -/
theorem C1_amended_witness :
    ((project [{ label := "a" }, { label := "b" }] (some 1) none).fst.length : Int)
      = 1 := by
  have h := C1_amended [{ label := "a" }, { label := "b" }] (some 1) none
    (by intro m hm; cases hm; decide)
  rw [h]; decide

/-! ### C2: truncation rule -/

/-- C2 counterexample: with `maxTextLength = 0` and label `"a"` the claim
demands truncation to the first 0 characters plus the ellipsis, but
`!maxTextLength` is true for `0`, so the code keeps the label unchanged. -/
theorem C2_counterexample :
    displayLabel (some 0) { label := "a" } = "a" ∧
    displayLabel (some 0) { label := "a" } ≠ jsStringSlice "a" 0 ++ ELLIPSIS := by
  constructor <;> decide

/-- C2 amended: for `maxTextLength ≥ 0`, the display string is the label
unchanged when `maxTextLength` is absent, **zero** (zero is falsy, so no
truncation is applied), or at least the label's length; otherwise it is the
first `maxTextLength` characters followed by the single ellipsis character
U+2026, has length `maxTextLength + 1`, and ends with the ellipsis. -/
theorem C2_amended (t : Int) (c : Chip) (ht : 0 ≤ t) :
    displayLabel none c = c.label ∧
    ((t = 0 ∨ (c.label.length : Int) ≤ t) → displayLabel (some t) c = c.label) ∧
    ((t ≠ 0 ∧ t < (c.label.length : Int)) →
      displayLabel (some t) c = jsStringSlice c.label t ++ ELLIPSIS ∧
      ((displayLabel (some t) c).length : Int) = t + 1 ∧
      ∃ s, displayLabel (some t) c = s ++ ELLIPSIS) := by
  refine ⟨rfl, ?_, ?_⟩
  · intro h
    simp only [displayLabel]
    rw [if_pos h]
  · rintro ⟨h1, h2⟩
    have hcond : ¬ (t = 0 ∨ (c.label.length : Int) ≤ t) := by
      push_neg; exact ⟨h1, h2⟩
    simp only [displayLabel]
    rw [if_neg hcond]
    refine ⟨rfl, ?_, ⟨jsStringSlice c.label t, rfl⟩⟩
    have hslice : (jsStringSlice c.label t).length = t.toNat := by
      have hneg : ¬ t < 0 := by omega
      simp only [jsStringSlice, jsSliceToEnd, hneg, if_false, String.length,
        List.length_take]
      have : c.label.length = c.label.data.length := rfl
      omega
    rw [String.length_append, hslice]
    have : ELLIPSIS.length = 1 := by decide
    rw [this]
    omega

/-- C2 amended, instantiated: `maxTextLength = 2` on the label `"abcd"`. -/
theorem C2_amended_witness :
    displayLabel (some 2) { label := "abcd" } = "ab" ++ ELLIPSIS ∧
    ((displayLabel (some 2) { label := "abcd" }).length : Int) = 3 := by
  have h := C2_amended 2 { label := "abcd" } (by decide)
  have h3 := h.2.2 (by constructor <;> decide)
  exact ⟨by rw [h3.1]; decide, h3.2.1⟩

/-! ### C3: hiddenCount formula -/

/-- C3: for every input with `maxChips`, if present, ≥ 0, the hidden count
equals `max(0, length(chips) − (maxChips ?? length(chips)))` and is ≥ 0. -/
theorem C3_hiddenCount (chips : List Chip) (mc mtl : Option Int)
    (h : ∀ m, mc = some m → 0 ≤ m) :
    (project chips mc mtl).snd =
      max ((chips.length : Int) - mc.getD (chips.length : Int)) 0 ∧
    0 ≤ (project chips mc mtl).snd := by
  unfold project render exceeding
  by_cases hc : chips.length = 0
  · rcases mc with _ | m
    · simp [hc]
    · have hm := h m rfl
      simp [hc]
      omega
  · simp only [hc, if_false]
    exact ⟨trivial, le_max_right _ _⟩

/-- C3, instantiated: five chips, `maxChips = 3`, hidden count 2. -/
theorem C3_hiddenCount_witness :
    (project initialSample (some 3) (some 10)).snd =
      max ((initialSample.length : Int) - (some (3 : Int)).getD (initialSample.length : Int)) 0 ∧
    0 ≤ (project initialSample (some 3) (some 10)).snd := by
  exact C3_hiddenCount initialSample (some 3) (some 10)
    (by intro m hm; cases hm; decide)

/-! ### C4: concrete scenario A -/

/-- C4 counterexample: on the sample input the third visible label is **not**
`"Performan…"` — `slice(0, 10)` keeps ten characters, so the code produces
`"Performanc…"`. -/
theorem C4_counterexample :
    (project initialSample (some 3) (some 10)).fst ≠
      ["ReactJS", "TypeScript", "Performan…"] := by
  decide

/-- C4 amended: on `chips = initialSample`, `maxChips = 3`,
`maxTextLength = 10`, the projection returns
`visibleLabels = ["ReactJS", "TypeScript", "Performanc…"]` (the first **ten**
characters of `"PerformanceOptimization"` plus the ellipsis) and
`hiddenCount = 2`. -/
theorem C4_amended :
    project initialSample (some 3) (some 10) =
      (["ReactJS", "TypeScript", "Performanc…"], 2) := by
  decide

/-! ### C5: order preservation -/

/-- C5: the visible labels are exactly the display-label projection of the
first `k` chips, in input order, for `k` the number of visible labels. -/
theorem C5_order (chips : List Chip) (mc mtl : Option Int) :
    (project chips mc mtl).fst =
      (chips.take ((project chips mc mtl).fst.length)).map (displayLabel mtl) := by
  rw [project_fst]
  obtain ⟨n, hn⟩ := visibleChips_eq_take chips mc mtl
  rw [hn, List.length_map, take_length_take]

/-! ### C6: negative limits -/

/-- C6 counterexample: with two chips and `maxChips = -1` the code neither
fails nor behaves as with `maxChips = 0`: `slice(0, -1)` keeps the first chip
only, while `maxChips = 0` keeps both; the hidden counts differ as well. -/
theorem C6_counterexample :
    project [{ label := "A" }, { label := "B" }] (some (-1)) none ≠
      project [{ label := "A" }, { label := "B" }] (some 0) none := by
  decide

/-- C6 amended: the code neither rejects negative limits nor normalizes them
to 0 — it is total, and a negative `maxChips = m` on a non-empty list keeps
the first `max(0, length(chips) + m)` chips while reporting
`hiddenCount = length(chips) − m`; a negative `maxTextLength = t` truncates
every label to its first `max(0, length + t)` characters plus the ellipsis. -/
theorem C6_amended (chips : List Chip) (m t : Int) (hm : m < 0) (ht : t < 0)
    (hne : chips ≠ []) :
    (project chips (some m) (some t)).fst =
      (chips.take ((chips.length : Int) + m).toNat).map
        (fun c => jsStringSlice c.label t ++ ELLIPSIS) ∧
    (project chips (some m) (some t)).snd = (chips.length : Int) - m := by
  have hc : ¬ chips.length = 0 := by
    simpa [List.length_eq_zero] using hne
  constructor
  · rw [project_fst]
    unfold visibleChips jsSliceToEnd
    have hm0 : ¬ m = 0 := by omega
    simp only [hc, if_false, hm0, hm, if_true]
    refine List.map_congr_left ?_
    intro c _
    have hcond : ¬ (t = 0 ∨ (c.label.length : Int) ≤ t) := by
      push_neg
      constructor
      · omega
      · have : (0 : Int) ≤ (c.label.length : Int) := Int.natCast_nonneg _
        omega
    simp only [displayLabel]
    rw [if_neg hcond]
  · unfold project render exceeding
    simp only [hc, if_false, Option.getD_some]
    omega

/-- C6 amended, instantiated: `chips = [{label:"AB"}, {label:"CD"}]`,
`maxChips = -1`, `maxTextLength = -1`. -/
theorem C6_amended_witness :
    (project [{ label := "AB" }, { label := "CD" }] (some (-1)) (some (-1))).fst =
      ["A…"] ∧
    (project [{ label := "AB" }, { label := "CD" }] (some (-1)) (some (-1))).snd =
      3 := by
  have h := C6_amended [{ label := "AB" }, { label := "CD" }] (-1) (-1)
    (by decide) (by decide) (by decide)
  refine ⟨?_, ?_⟩
  · rw [h.1]; decide
  · rw [h.2]; decide

/-! ### C7: addChip -/

/-- C7: `addChip` trims the candidate; an empty trimmed text or an exact
(case-sensitive) duplicate label leaves the list unchanged, otherwise exactly
one new record with the trimmed label is appended at the end. -/
theorem C7_addChip (existing : List Chip) (candidate : String) :
    addChip existing candidate =
      if candidate.trim = "" ∨ ∃ c ∈ existing, c.label = candidate.trim then
        existing
      else existing ++ [{ label := candidate.trim }] := by
  by_cases hdup : ∃ c ∈ existing, c.label = candidate.trim
  · have hany : (existing.any fun chip => chip.label == candidate.trim) = true := by
      rw [List.any_eq_true]
      obtain ⟨c, hc, hl⟩ := hdup
      exact ⟨c, hc, beq_iff_eq.mpr hl⟩
    simp [addChip, hany, hdup]
  · have hany : (existing.any fun chip => chip.label == candidate.trim) = false := by
      rw [List.any_eq_false]
      intro c hc
      simp only [beq_iff_eq]
      exact fun hl => hdup ⟨c, hc, hl⟩
    by_cases h1 : candidate.trim = ""
    · simp [addChip, hany, h1]
    · simp [addChip, hany, h1, hdup]

/-! ### C8: empty input -/

/-- C8: on the empty chip list the projection is `([], 0)`, the component
renders the distinct "no chips" state, and no non-empty list renders it. -/
theorem C8_empty (mc mtl : Option Int) :
    project [] mc mtl = ([], 0) ∧
    render [] mc mtl = RenderState.noChips ∧
    ∀ chips : List Chip, chips ≠ [] → render chips mc mtl ≠ RenderState.noChips := by
  refine ⟨rfl, rfl, ?_⟩
  intro chips h
  have hc : ¬ chips.length = 0 := by
    simpa [List.length_eq_zero] using h
  simp [render, hc]

/-- C8, instantiated: one chip, `maxChips = 1`. -/
theorem C8_empty_witness :
    render [{ label := "a" }] (some 1) none ≠ RenderState.noChips := by
  exact (C8_empty (some 1) none).2.2 [{ label := "a" }] (by decide)

/-! ### C9: theme noninterference and determinism -/

/-- C9: two runs of `ChipListCusto`'s projection that differ only in the
theme prop render identical labels and hidden count, and two runs on
identical inputs are identical (the projection is a pure function). -/
theorem C9_theme (chips : List Chip) (mc mtl : Option Int)
    (th th' : Option String) :
    (custoRender chips mc mtl th).snd = (custoRender chips mc mtl th').snd ∧
    custoRender chips mc mtl th = custoRender chips mc mtl th := by
  exact ⟨rfl, rfl⟩

/-! ### C10: behaviour at zero limits -/

/-- C10: with `maxChips = 0` and a non-empty list, no slice is applied — every
chip's display label is returned — while the hidden count still reports
`length(chips)`, so visible plus hidden totals `2 · length(chips)`; and with
`maxTextLength = 0` no truncation is applied to any label. -/
theorem C10_zero_limits (chips : List Chip) (mtl : Option Int)
    (hne : chips ≠ []) :
    (project chips (some 0) mtl).fst = chips.map (displayLabel mtl) ∧
    (project chips (some 0) mtl).snd = (chips.length : Int) ∧
    ((project chips (some 0) mtl).fst.length : Int) +
      (project chips (some 0) mtl).snd = 2 * (chips.length : Int) ∧
    ∀ c : Chip, displayLabel (some 0) c = c.label := by
  have hc : ¬ chips.length = 0 := by
    simpa [List.length_eq_zero] using hne
  have hfst : (project chips (some 0) mtl).fst = chips.map (displayLabel mtl) := by
    rw [project_fst]
    unfold visibleChips
    simp [hc]
  have hsnd : (project chips (some 0) mtl).snd = (chips.length : Int) := by
    unfold project render exceeding
    simp only [hc, if_false, Option.getD_some]
    omega
  refine ⟨hfst, hsnd, ?_, ?_⟩
  · rw [hfst, hsnd, List.length_map]
    omega
  · intro c
    simp [displayLabel]

/-- C10, instantiated: the five sample chips with `maxChips = 0` all stay
visible while the hidden count reports all five as hidden. -/
theorem C10_zero_limits_witness :
    (project initialSample (some 0) (some 10)).fst =
      initialSample.map (displayLabel (some 10)) ∧
    (project initialSample (some 0) (some 10)).snd = 5 := by
  have h := C10_zero_limits initialSample (some 10) (by decide)
  exact ⟨h.1, h.2.1⟩
